import Mathlib

/-!
Verification of the link-shortener core: a shallow embedding of the
short-code allocator, validation layer, mutation orchestrators and
redirect lookup (`src/app/dashboard/actions.ts`, the data accessors in
`src/data/links.ts`, and the redirect route handler), together with
proofs of the specified properties.

Modelling conventions:
* JS strings are `String` / `List Char`; machine integers do not occur.
* The database table is a `List Link` (insertion order); each accessor
  from `src/data/links.ts` becomes a pure function on that list.
* Awaited persistence calls can fault.  A `DbEnv` injects faults:
  `probeFault n` makes the allocator's n-th probe throw, `checkFault`
  makes a standalone uniqueness check throw, `writeFault` makes the
  persisting insert/update/delete throw.  A thrown fault that the
  source does not catch is `Except.error ()` at the action boundary.
* `new URL(u)` (a platform builtin) is modelled by `parseUrlHostname`,
  a WHATWG-style hostname extractor restricted to ASCII hosts (no IDNA
  or IPv6; `file:` is treated as a non-special scheme).
-/

namespace LinkShortener

/-- Link row of the `links` table (`src/db/schema`): `id` is the identity
primary key, `userId` the owner, `url` the destination, `shortCode` the
unique code.  The two timestamp columns are elided: no verified claim
mentions them. -/
structure Link where
  id : Nat
  userId : String
  url : String
  shortCode : String
deriving DecidableEq, Repr

/-- The `links` table, in insertion order. -/
abbrev Table := List Link

/-- Storage faults: a violation of the `links_short_code_unique`
constraint, or an injected lower-level fault. -/
inductive DbFault where
  | uniqueViolation
  | injected
deriving DecidableEq, Repr

/-- Fault-injection environment for the awaited persistence calls. -/
structure DbEnv where
  probeFault : Nat → Bool
  checkFault : Bool
  writeFault : Bool

/-- Environment in which no persistence call faults. -/
def noFaults : DbEnv where
  probeFault := fun _ => false
  checkFault := false
  writeFault := false

/-- Characters kept by the allocator's cleaning step: `[a-z0-9]`
(the regex `/[^a-z0-9]/g` removes everything else). -/
def isLowAlnum (c : Char) : Bool :=
  ('a' ≤ c && c ≤ 'z') || ('0' ≤ c && c ≤ '9')

/-- Characters of the short-code alphabet `[a-zA-Z0-9-_]`
(regex at `actions.ts:31`). -/
def isShortCodeChar (c : Char) : Bool :=
  c.isAlpha || c.isDigit || c = '-' || c = '_'

/-- Modelled platform builtin (WHATWG URL parser): a C0-control-or-space
code point, trimmed from both ends of the input. -/
def isC0OrSpace (c : Char) : Bool :=
  c ≤ ' '

/-- Modelled platform builtin: leading/trailing trim performed by the URL
parser before parsing. -/
def trimUrlSpace (l : List Char) : List Char :=
  ((l.dropWhile isC0OrSpace).reverse.dropWhile isC0OrSpace).reverse

/-- Modelled platform builtin: scheme code points `[A-Za-z0-9+.-]`. -/
def isSchemeChar (c : Char) : Bool :=
  c.isAlphanum || c = '+' || c = '-' || c = '.'

/-- Modelled platform builtin: the special schemes whose URLs must carry a
nonempty host (`file:` is treated as non-special in this model). -/
def isSpecialScheme (s : List Char) : Bool :=
  let l := String.mk (s.map Char.toLower)
  l = "http" || l = "https" || l = "ws" || l = "wss" || l = "ftp"

/-- Modelled platform builtin: code points forbidden in a host. -/
def forbiddenHostChar (c : Char) : Bool :=
  c = ' ' || c = '<' || c = '>' || c = '[' || c = ']' || c = '^' ||
  c = '|' || c = '\\' || c = '%' || c = '\x00'

/-- Modelled platform builtin: the host part of an authority begins after
the last `@` (anything before it is userinfo). -/
def afterLastAt (l : List Char) : List Char :=
  if l.contains '@' then (l.reverse.takeWhile (fun ch => ch ≠ '@')).reverse else l

/-- Modelled platform builtin: parse the authority section of a URL and
return its (lower-cased) host, or `none` when the URL is rejected
(non-numeric port, forbidden host character, or an empty host for a
special scheme). -/
def parseAuthority (l : List Char) (special : Bool) : Option (List Char) :=
  let authority := l.takeWhile fun ch =>
    !(ch = '/' || ch = '?' || ch = '#' || (special && ch = '\\'))
  let hostport := afterLastAt authority
  let host := hostport.takeWhile (fun ch => ch ≠ ':')
  let port := (hostport.dropWhile (fun ch => ch ≠ ':')).drop 1
  if !(port.all Char.isDigit) then none
  else if host.any forbiddenHostChar then none
  else if special && host.isEmpty then none
  else some (host.map Char.toLower)

/-- Modelled platform builtin: `new URL(url).hostname`.  Returns the
hostname on success and `none` when `new URL` would throw.  Special
schemes skip any run of slashes before the authority; other schemes
parse an authority only after a literal `//` and otherwise have an empty
hostname (opaque path). -/
def parseUrlHostname (url : String) : Option (List Char) :=
  let cs0 := trimUrlSpace url.toList
  let cs := cs0.filter fun c => !(c = '\t' || c = '\n' || c = '\r')
  let scheme := cs.takeWhile isSchemeChar
  let rest := cs.drop scheme.length
  match scheme, rest with
  | sc :: scs, ':' :: rest1 =>
    if sc.isAlpha then
      if isSpecialScheme (sc :: scs) then
        parseAuthority (rest1.dropWhile fun ch => ch = '/' || ch = '\\') true
      else if rest1.take 2 = ['/', '/'] then
        parseAuthority (rest1.drop 2) false
      else some []
    else none
  | _, _ => none

/-- Helper function to generate short code from URL domain
(`actions.ts:9-22`).  `hostname.replace(/^www\./, '')` strips one
leading `www.`; `split('.')[0]` is the prefix before the first dot;
`toLowerCase().replace(/[^a-z0-9]/g, '')` lower-cases and filters;
`slice(0, 10) || 'link'` truncates and falls back on the empty string;
the surrounding `try/catch` yields `'link'` when `new URL` throws. -/
def generateShortCodeFromUrl (url : String) : String :=
  match parseUrlHostname url with
  | none => "link"
  | some hostname =>
    let domain := if hostname.take 4 = ['w', 'w', 'w', '.'] then hostname.drop 4 else hostname
    let domainPart := domain.takeWhile (fun ch => ch ≠ '.')
    let cleaned := (domainPart.map Char.toLower).filter isLowAlnum
    let sliced := cleaned.take 10
    if sliced.isEmpty then "link" else String.mk sliced

/-- Validation messages produced by the `shortCode` checks of
`CreateLinkSchema` / `UpdateLinkSchema` (`actions.ts:27-42`): zod runs
`min(3)`, `max(20)` and `regex(/^[a-zA-Z0-9-_]+$/)` in order and
collects every failing check's message. -/
def shortCodeIssues (s : String) : List String :=
  (if s.length < 3 then ["Short code must be at least 3 characters"] else []) ++
  (if s.length > 20 then ["Short code must be at most 20 characters"] else []) ++
  (if s.toList ≠ [] ∧ s.toList.all isShortCodeChar then []
   else ["Short code can only contain letters, numbers, hyphens, and underscores"])

/-- Validation messages of the `url` field (`z.string().url(...)`,
`actions.ts:26`): zod's url check calls `new URL` and fails when it
throws. -/
def urlIssues (u : String) : List String :=
  if (parseUrlHostname u).isSome then [] else ["Please enter a valid URL"]

/-- Input of `createLinkAction`: `{url: string, shortCode?: string}`. -/
structure CreateLinkInput where
  url : String
  shortCode : Option String
deriving DecidableEq, Repr

/-- Input of `updateLinkAction`: `{id: number, url: string, shortCode: string}`. -/
structure UpdateLinkInput where
  id : Nat
  url : String
  shortCode : String
deriving DecidableEq, Repr

/-- Input of `deleteLinkAction`: `{id: number}`. -/
structure DeleteLinkInput where
  id : Nat
deriving DecidableEq, Repr

/-- The `error.flatten().fieldErrors` of `CreateLinkSchema.safeParse`: a
mapping from failing field name to its list of messages, in field order
`url`, `shortCode`.  The parse succeeds exactly when this list is empty
(`z.number()` cannot fail on the typed inputs of this model). -/
def createFieldErrors (i : CreateLinkInput) : List (String × List String) :=
  let ue := urlIssues i.url
  let se := match i.shortCode with
    | none => []
    | some c => shortCodeIssues c
  (if ue.isEmpty then [] else [("url", ue)]) ++
  (if se.isEmpty then [] else [("shortCode", se)])

/-- The `error.flatten().fieldErrors` of `UpdateLinkSchema.safeParse`. -/
def updateFieldErrors (i : UpdateLinkInput) : List (String × List String) :=
  let ue := urlIssues i.url
  let se := shortCodeIssues i.shortCode
  (if ue.isEmpty then [] else [("url", ue)]) ++
  (if se.isEmpty then [] else [("shortCode", se)])

/-- Data accessor `checkShortCodeExists` (`src/data/links.ts:43-57`):
is some row's `shortCode` equal to the candidate, optionally excluding
one row id?  The exclusion scopes nothing by owner. -/
def checkShortCodeExists (tbl : Table) (shortCode : String) (excludeId : Option Nat) : Bool :=
  tbl.any fun r =>
    r.shortCode == shortCode &&
    (match excludeId with
     | none => true
     | some i => !(r.id == i))

/-- Data accessor `getLinkByShortCode` (`src/data/links.ts:59-67`):
first row whose `shortCode` matches (`limit 1`). -/
def getLinkByShortCode (tbl : Table) (shortCode : String) : Option Link :=
  tbl.find? fun r => r.shortCode == shortCode

/-- Fresh identity value for an insert (`GENERATED ALWAYS AS IDENTITY`):
one more than the largest id in the table. -/
def freshId (tbl : Table) : Nat :=
  (tbl.map Link.id).foldr max 0 + 1

/-- Data accessor `createLink` (`src/data/links.ts:13-16`): insert a row
and return it.  The insert faults on an injected storage fault or when
the `short_code` uniqueness constraint would be violated. -/
def createLink (env : DbEnv) (tbl : Table) (userId url shortCode : String) :
    Except DbFault (Link × Table) :=
  if env.writeFault then .error .injected
  else if tbl.any (fun r => r.shortCode == shortCode) then .error .uniqueViolation
  else
    let link : Link := { id := freshId tbl, userId := userId, url := url, shortCode := shortCode }
    .ok (link, tbl ++ [link])

/-- Data accessor `updateLink` (`src/data/links.ts:18-33`): set `url` and
`shortCode` on the rows matching both `id` and `userId`, returning the
first updated row or `none` when no row matched.  Faults on an injected
storage fault or a would-be uniqueness violation. -/
def updateLink (env : DbEnv) (tbl : Table) (id : Nat) (userId : String)
    (url shortCode : String) : Except DbFault (Option Link × Table) :=
  if env.writeFault then .error .injected
  else if tbl.any (fun r => r.id == id && r.userId == userId) &&
          tbl.any (fun r => !(r.id == id && r.userId == userId) && r.shortCode == shortCode) then
    .error .uniqueViolation
  else
    .ok ((tbl.find? (fun r => r.id == id && r.userId == userId)).map
           (fun r => { r with url := url, shortCode := shortCode }),
         tbl.map fun r =>
           if r.id == id && r.userId == userId then { r with url := url, shortCode := shortCode }
           else r)

/-- Data accessor `deleteLink` (`src/data/links.ts:35-41`): delete the
rows matching both `id` and `userId`, returning the first deleted row or
`none` when no row matched. -/
def deleteLink (env : DbEnv) (tbl : Table) (id : Nat) (userId : String) :
    Except DbFault (Option Link × Table) :=
  if env.writeFault then .error .injected
  else
    .ok (tbl.find? (fun r => r.id == id && r.userId == userId),
         tbl.filter fun r => !(r.id == id && r.userId == userId))

/-- The suffix-probing `while` loop of `createLinkAction`
(`actions.ts:79-87`), with the state `(shortCode, counter)` of the
source: probe the current candidate; when taken, build
`base + counter`, increment `counter`, and abort with `none` (no free
value) once `counter` exceeds 1000; a faulting probe propagates as
`Except.error` because the loop is outside the `try` block. -/
def allocLoop (env : DbEnv) (tbl : Table) (base : String) (code : String) (counter : Nat) :
    Except Unit (Option String) :=
  if env.probeFault counter then .error ()
  else if checkShortCodeExists tbl code none then
    if h : counter + 1 > 1000 then .ok none
    else allocLoop env tbl base (base ++ toString counter) (counter + 1)
  else .ok (some code)
termination_by 1001 - counter
decreasing_by omega

/-- Result values of the three server actions, one constructor per
return shape of the source: `{success: true, data: link}`,
`{success: true}` (delete), `{error}` and `{error, details}`. -/
inductive ActionResult where
  | okLink (data : Link)
  | okUnit
  | errOnly (error : String)
  | errDetails (error : String) (details : List (String × List String))
deriving DecidableEq, Repr

/-- Server action `createLinkAction` (`actions.ts:54-113`):
authenticate, validate, derive or uniqueness-check the short code, then
insert inside `try/catch`.  Returns the result together with the table
after the call; `Except.error` is an uncaught exception. -/
def createLinkAction (env : DbEnv) (userId : Option String) (input : CreateLinkInput)
    (tbl : Table) : Except Unit (ActionResult × Table) :=
  match userId with
  | none => .ok (.errOnly "Unauthorized", tbl)
  | some uid =>
    let fe := createFieldErrors input
    if fe.isEmpty then
      match input.shortCode with
      | none =>
        let base := generateShortCodeFromUrl input.url
        match allocLoop env tbl base base 1 with
        | .error e => .error e
        | .ok none =>
          .ok (.errOnly "Failed to generate unique short code. Please provide a custom one.", tbl)
        | .ok (some code) =>
          match createLink env tbl uid input.url code with
          | .error _ => .ok (.errOnly "Failed to create link. Please try again.", tbl)
          | .ok (link, tbl') => .ok (.okLink link, tbl')
      | some code =>
        if env.checkFault then .error ()
        else if checkShortCodeExists tbl code none then
          .ok (.errDetails "Short code already exists"
                 [("shortCode", ["This short code is already taken"])], tbl)
        else
          match createLink env tbl uid input.url code with
          | .error _ => .ok (.errOnly "Failed to create link. Please try again.", tbl)
          | .ok (link, tbl') => .ok (.okLink link, tbl')
    else .ok (.errDetails "Invalid input" fe, tbl)

/-- Server action `updateLinkAction` (`actions.ts:115-159`):
authenticate, validate, check the new code for collisions excluding the
target row, then update inside `try/catch`; a vanished or
foreign-owned target yields the not-found error. -/
def updateLinkAction (env : DbEnv) (userId : Option String) (input : UpdateLinkInput)
    (tbl : Table) : Except Unit (ActionResult × Table) :=
  match userId with
  | none => .ok (.errOnly "Unauthorized", tbl)
  | some uid =>
    let fe := updateFieldErrors input
    if fe.isEmpty then
      if env.checkFault then .error ()
      else if checkShortCodeExists tbl input.shortCode (some input.id) then
        .ok (.errDetails "Short code already exists"
               [("shortCode", ["This short code is already taken"])], tbl)
      else
        match updateLink env tbl input.id uid input.url input.shortCode with
        | .error _ => .ok (.errOnly "Failed to update link. Please try again.", tbl)
        | .ok (none, tbl') =>
          .ok (.errOnly "Link not found or you do not have permission to edit it", tbl')
        | .ok (some link, tbl') => .ok (.okLink link, tbl')
    else .ok (.errDetails "Invalid input" fe, tbl)

/-- Server action `deleteLinkAction` (`actions.ts:161-190`):
authenticate, validate (the bare id cannot fail on typed input), then
delete inside `try/catch`; success returns a bare acknowledgment
without the deleted row. -/
def deleteLinkAction (env : DbEnv) (userId : Option String) (input : DeleteLinkInput)
    (tbl : Table) : Except Unit (ActionResult × Table) :=
  match userId with
  | none => .ok (.errOnly "Unauthorized", tbl)
  | some uid =>
    match deleteLink env tbl input.id uid with
    | .error _ => .ok (.errOnly "Failed to delete link. Please try again.", tbl)
    | .ok (none, tbl') =>
      .ok (.errOnly "Link not found or you do not have permission to delete it", tbl')
    | .ok (some _, tbl') => .ok (.okUnit, tbl')

/-- Responses of the redirect route handler. -/
inductive RouteResponse where
  | notFound (status : Nat) (body : String)
  | redirect (status : Nat) (location : String)
deriving DecidableEq, Repr

/-- Redirect route handler `GET` (`app/[shortcode]/route.ts`): look the
code up and either 404 or 307-redirect to the stored URL. -/
def GET (tbl : Table) (shortcode : String) : RouteResponse :=
  match getLinkByShortCode tbl shortcode with
  | none => .notFound 404 "Link not found"
  | some link => .redirect 307 link.url

/-- First free suffix: the least `k` in `[counter, counter + fuel)` whose
candidate `base ++ toString k` is not in the table.  Recursion companion
of `allocLoop`, used to state and prove its characterisation. -/
def firstFreeAux (tbl : Table) (base : String) : Nat → Nat → Option Nat
  | _, 0 => none
  | counter, fuel + 1 =>
    if checkShortCodeExists tbl (base ++ toString counter) none then
      firstFreeAux tbl base (counter + 1) fuel
    else some counter

/-- Base-candidate derivation as the specification words it: the host
with one leading `www.` label stripped, cut at the first `.`,
lower-cased, every character outside `[a-z0-9]` removed, truncated to
10 characters, with the literal `"link"` replacing an empty result.
Stated over the parsed host, for comparison with
`generateShortCodeFromUrl`. -/
def specBaseCandidate (host : List Char) : String :=
  let afterWww := if host.take 4 = ['w', 'w', 'w', '.'] then host.drop 4 else host
  let firstLabel := afterWww.takeWhile (fun ch => ch ≠ '.')
  let lowered := firstLabel.map Char.toLower
  let filtered := lowered.filter isLowAlnum
  let truncated := filtered.take 10
  if truncated.isEmpty then "link" else String.mk truncated

/-- Decidable equality of `Except` results, so that concrete runs of the
actions can be checked by `decide`. -/
instance {ε α : Type} [DecidableEq ε] [DecidableEq α] : DecidableEq (Except ε α) := fun x y =>
  match x, y with
  | .error a, .error b =>
    if h : a = b then .isTrue (congrArg Except.error h)
    else .isFalse fun hc => h (Except.error.inj hc)
  | .error _, .ok _ => .isFalse fun hc => Except.noConfusion hc
  | .ok _, .error _ => .isFalse fun hc => Except.noConfusion hc
  | .ok a, .ok b =>
    if h : a = b then .isTrue (congrArg Except.ok h)
    else .isFalse fun hc => h (Except.ok.inj hc)

/-- Environment in which every uniqueness probe and standalone
uniqueness check faults (the persisting write succeeds). -/
def checksFaultEnv : DbEnv where
  probeFault := fun _ => true
  checkFault := true
  writeFault := false

/-- The result shapes named by the specification's interface contract:
`{ok: true, data: Link}` on success or `{ok: false, error, fieldErrors?}`
on failure.  The bare `{success: true}` acknowledgment carries no data
and is outside both shapes. -/
def hasClaimedShape : ActionResult → Bool
  | .okLink _ => true
  | .okUnit => false
  | .errOnly _ => true
  | .errDetails _ _ => true

/-! Helper lemmas. -/

theorem allocLoop_unfold (env : DbEnv) (tbl : Table) (base code : String) (counter : Nat) :
    allocLoop env tbl base code counter =
      if env.probeFault counter then .error ()
      else if checkShortCodeExists tbl code none then
        if counter + 1 > 1000 then .ok none
        else allocLoop env tbl base (base ++ toString counter) (counter + 1)
      else .ok (some code) := by
  rw [allocLoop]
  simp only [dite_eq_ite]

theorem firstFreeAux_some (tbl : Table) (base : String) :
    ∀ fuel counter k, firstFreeAux tbl base counter fuel = some k →
      counter ≤ k ∧ k < counter + fuel ∧
      checkShortCodeExists tbl (base ++ toString k) none = false ∧
      ∀ j, counter ≤ j → j < k → checkShortCodeExists tbl (base ++ toString j) none = true := by
  intro fuel
  induction fuel with
  | zero => intro counter k h; simp [firstFreeAux] at h
  | succ fuel ih =>
    intro counter k h
    rw [firstFreeAux] at h
    rcases hc : checkShortCodeExists tbl (base ++ toString counter) none with _ | _
    · rw [hc] at h
      simp only [Bool.false_eq_true, if_false, Option.some.injEq] at h
      subst h
      exact ⟨Nat.le_refl _, by omega, hc, fun j hj1 hj2 => absurd (Nat.lt_of_le_of_lt hj1 hj2) (Nat.lt_irrefl _)⟩
    · rw [hc] at h
      simp only [if_true] at h
      obtain ⟨h1, h2, h3, h4⟩ := ih (counter + 1) k h
      refine ⟨by omega, by omega, h3, ?_⟩
      intro j hj1 hj2
      rcases Nat.lt_or_ge j (counter + 1) with hlt | hge
      · have : j = counter := by omega
        subst this
        exact hc
      · exact h4 j hge hj2

theorem firstFreeAux_none (tbl : Table) (base : String) :
    ∀ fuel counter, firstFreeAux tbl base counter fuel = none →
      ∀ k, counter ≤ k → k < counter + fuel →
        checkShortCodeExists tbl (base ++ toString k) none = true := by
  intro fuel
  induction fuel with
  | zero => intro counter _ k h1 h2; omega
  | succ fuel ih =>
    intro counter h k h1 h2
    rw [firstFreeAux] at h
    rcases hc : checkShortCodeExists tbl (base ++ toString counter) none with _ | _
    · rw [hc] at h; simp at h
    · rw [hc] at h
      simp only [if_true] at h
      rcases Nat.lt_or_ge k (counter + 1) with hlt | hge
      · have : k = counter := by omega
        subst this
        exact hc
      · exact ih (counter + 1) h k hge (by omega)

theorem firstFreeAux_complete (tbl : Table) (base : String) :
    ∀ fuel counter k, counter ≤ k → k < counter + fuel →
      checkShortCodeExists tbl (base ++ toString k) none = false →
      (∀ j, counter ≤ j → j < k → checkShortCodeExists tbl (base ++ toString j) none = true) →
      firstFreeAux tbl base counter fuel = some k := by
  intro fuel
  induction fuel with
  | zero => intro counter k h1 h2; omega
  | succ fuel ih =>
    intro counter k h1 h2 hfree htaken
    rw [firstFreeAux]
    rcases Nat.eq_or_lt_of_le h1 with rfl | hlt
    · rw [hfree]
      simp
    · rw [htaken counter (Nat.le_refl _) hlt]
      simp only [if_true]
      exact ih (counter + 1) k hlt (by omega) hfree (fun j hj1 hj2 => htaken j (by omega) hj2)

/-- Characterisation of the allocator loop when no probe faults: it
returns the current candidate when free, otherwise the first free
suffixed candidate within the attempt budget, and `none` when there is
no such candidate. -/
theorem allocLoop_firstFree (env : DbEnv) (tbl : Table) (base : String)
    (hp : ∀ n, env.probeFault n = false) :
    ∀ fuel counter code, counter + fuel = 1000 →
      allocLoop env tbl base code counter =
        .ok (if checkShortCodeExists tbl code none
             then (firstFreeAux tbl base counter fuel).map (fun k => base ++ toString k)
             else some code) := by
  intro fuel
  induction fuel with
  | zero =>
    intro counter code h
    rw [allocLoop_unfold]
    simp only [hp, Bool.false_eq_true, if_false]
    rcases hc : checkShortCodeExists tbl code none with _ | _
    · simp
    · have : counter + 1 > 1000 := by omega
      simp [this, firstFreeAux]
  | succ fuel ih =>
    intro counter code h
    rw [allocLoop_unfold]
    simp only [hp, Bool.false_eq_true, if_false]
    rcases hc : checkShortCodeExists tbl code none with _ | _
    · simp
    · have hlt : ¬ counter + 1 > 1000 := by omega
      rw [if_pos rfl, if_neg hlt, ih (counter + 1) (base ++ toString counter) (by omega)]
      rw [firstFreeAux]
      rcases hc2 : checkShortCodeExists tbl (base ++ toString counter) none with _ | _
      · simp [hc2]
      · simp [hc2]

/-- Inversion of a successful insert: the returned row is freshly built,
the table grows by exactly that row, and no pre-existing row carried the
code (the uniqueness constraint would have fired). -/
theorem createLink_ok {env : DbEnv} {tbl : Table} {uid url code : String}
    {link : Link} {tbl' : Table}
    (h : createLink env tbl uid url code = .ok (link, tbl')) :
    link = { id := freshId tbl, userId := uid, url := url, shortCode := code } ∧
    tbl' = tbl ++ [link] ∧ ∀ r ∈ tbl, ¬ r.shortCode = code := by
  unfold createLink at h
  split at h
  · exact absurd h (by simp)
  · split at h
    · exact absurd h (by simp)
    · rename_i hany
      simp only [Except.ok.injEq, Prod.mk.injEq] at h
      obtain ⟨h1, h2⟩ := h
      subst h1; subst h2
      refine ⟨rfl, rfl, ?_⟩
      intro r hr hcode
      have := List.any_eq_false.mp (Bool.not_eq_true _ |>.mp hany) r hr
      simp [hcode] at this

set_option maxRecDepth 10000 in
/-- Decimal representations of the loop counter: at most three
characters, all in `[a-z0-9]`. -/
theorem toString_counter_small :
    ∀ k : Nat, k < 1000 →
      (toString k).toList.all isLowAlnum = true ∧ (toString k).length ≤ 3 := by
  decide

/-- Shape of the truncate-or-fallback step: given cleaned characters,
the resulting string matches `[a-z0-9]{1,10}`. -/
theorem fallback_shape (cs : List Char) (hall : ∀ c ∈ cs, isLowAlnum c = true) :
    (if (cs.take 10).isEmpty then "link" else String.mk (cs.take 10)).toList.all isLowAlnum
      = true ∧
    1 ≤ (if (cs.take 10).isEmpty then "link" else String.mk (cs.take 10)).length ∧
    (if (cs.take 10).isEmpty then "link" else String.mk (cs.take 10)).length ≤ 10 := by
  by_cases he : (cs.take 10).isEmpty = true
  · simp only [he, if_true]
    exact ⟨by decide, by decide, by decide⟩
  · simp only [if_neg he]
    have hne := List.isEmpty_eq_false.mp (Bool.not_eq_true _ |>.mp he)
    refine ⟨?_, ?_, ?_⟩
    · show (cs.take 10).all isLowAlnum = true
      refine List.all_eq_true.mpr fun c hc => ?_
      exact hall c (List.mem_of_mem_take hc)
    · show 1 ≤ (cs.take 10).length
      have := List.length_pos.mpr hne
      omega
    · show (cs.take 10).length ≤ 10
      have := List.length_take 10 cs
      omega

/-- The base candidate always matches `[a-z0-9]{1,10}` (the fallback
`"link"` also does). -/
theorem generateShortCodeFromUrl_shape (url : String) :
    (generateShortCodeFromUrl url).toList.all isLowAlnum = true ∧
    1 ≤ (generateShortCodeFromUrl url).length ∧
    (generateShortCodeFromUrl url).length ≤ 10 := by
  unfold generateShortCodeFromUrl
  cases h : parseUrlHostname url with
  | none => exact ⟨by decide, by decide, by decide⟩
  | some hostname =>
    exact fallback_shape _ fun c hc => (List.mem_filter.mp hc).2

/-- A fresh-coded insert makes the inserted row the unique hit of a
subsequent lookup by its code. -/
theorem getLinkByShortCode_append_fresh (tbl : Table) (link : Link)
    (h : ∀ r ∈ tbl, ¬ r.shortCode = link.shortCode) :
    getLinkByShortCode (tbl ++ [link]) link.shortCode = some link := by
  unfold getLinkByShortCode
  rw [List.find?_append]
  have h1 : tbl.find? (fun r => r.shortCode == link.shortCode) = none :=
    List.find?_eq_none.mpr fun r hr => by simpa using h r hr
  rw [h1]
  simp [List.find?]

/-- A successful insert feeds the redirect lookup: looking up the
returned row's code finds exactly the returned row's URL. -/
theorem createLink_ok_GET {env : DbEnv} {tbl : Table} {uid url code : String}
    {link : Link} {tbl' : Table}
    (h : createLink env tbl uid url code = .ok (link, tbl')) :
    GET tbl' link.shortCode = .redirect 307 link.url := by
  obtain ⟨hl, ht, hfresh⟩ := createLink_ok h
  subst ht
  unfold GET
  rw [getLinkByShortCode_append_fresh]
  · intro r hr
    subst hl
    exact hfresh r hr

/-- Evaluation rule for the allocator path of `createLinkAction`: valid
input without an explicit code, an allocator result and a successful
insert produce the success result. -/
theorem createLinkAction_alloc_ok {env : DbEnv} {uid url : String} {tbl : Table}
    {code : String} {link : Link} {tbl' : Table}
    (hfe : createFieldErrors { url := url, shortCode := none } = [])
    (halloc : allocLoop env tbl (generateShortCodeFromUrl url) (generateShortCodeFromUrl url) 1 =
      .ok (some code))
    (hins : createLink env tbl uid url code = .ok (link, tbl')) :
    createLinkAction env (some uid) { url := url, shortCode := none } tbl =
      .ok (.okLink link, tbl') := by
  unfold createLinkAction
  simp only [hfe, List.isEmpty_nil, if_true]
  rw [halloc]
  simp only
  rw [hins]

/-! Claim theorems. -/

/-- C2: for every URL that parses, the allocator's base candidate is the
host with one leading `www.` stripped, cut at the first dot,
lower-cased, restricted to `[a-z0-9]`, truncated to 10 characters, with
`"link"` replacing an empty result; in particular the base candidate of
`https://www.youtube.com/watch?v=abc` is exactly `youtube`. -/
theorem generateShortCodeFromUrl_matches_spec :
    (∀ url host, parseUrlHostname url = some host →
      generateShortCodeFromUrl url = specBaseCandidate host) ∧
    generateShortCodeFromUrl "https://www.youtube.com/watch?v=abc" = "youtube" := by
  constructor
  · intro url host h
    unfold generateShortCodeFromUrl specBaseCandidate
    rw [h]
  · decide

/-- Witness for C2: the youtube URL parses to host `www.youtube.com`
and the code's derivation agrees with the specification's on it. -/
theorem generateShortCodeFromUrl_matches_spec_w :
    generateShortCodeFromUrl "https://www.youtube.com/watch?v=abc" =
      specBaseCandidate "www.youtube.com".toList :=
  generateShortCodeFromUrl_matches_spec.1 "https://www.youtube.com/watch?v=abc"
    "www.youtube.com".toList (by decide)

/-- C5: validation accepts a short code exactly when it is 3–20
characters over `[A-Za-z0-9_-]` and a URL exactly when it parses; an
invalid create or update input is rejected with the field-to-messages
mapping before any table change; `"ab"` and `"has space"` produce their
field-scoped messages and `"my-link_1"` passes. -/
theorem validation_rejects_before_side_effects :
    (∀ s : String, shortCodeIssues s = [] ↔
      (3 ≤ s.length ∧ s.length ≤ 20 ∧ s.toList.all isShortCodeChar = true)) ∧
    (∀ u : String, urlIssues u = [] ↔ (parseUrlHostname u).isSome = true) ∧
    (∀ env uid input tbl, createFieldErrors input ≠ [] →
      createLinkAction env (some uid) input tbl =
        .ok (.errDetails "Invalid input" (createFieldErrors input), tbl)) ∧
    (∀ env uid input tbl, updateFieldErrors input ≠ [] →
      updateLinkAction env (some uid) input tbl =
        .ok (.errDetails "Invalid input" (updateFieldErrors input), tbl)) ∧
    shortCodeIssues "ab" = ["Short code must be at least 3 characters"] ∧
    shortCodeIssues "has space" =
      ["Short code can only contain letters, numbers, hyphens, and underscores"] ∧
    shortCodeIssues "my-link_1" = [] ∧
    createFieldErrors { url := "https://example.com/x", shortCode := some "ab" } =
      [("shortCode", ["Short code must be at least 3 characters"])] ∧
    createFieldErrors { url := "https://example.com/x", shortCode := some "has space" } =
      [("shortCode", ["Short code can only contain letters, numbers, hyphens, and underscores"])] := by
  refine ⟨?_, ?_, ?_, ?_, by decide, by decide, by decide, by decide, by decide⟩
  · intro s
    have hlen : s.toList.length = s.length := rfl
    constructor
    · intro h
      unfold shortCodeIssues at h
      by_cases h1 : s.length < 3
      · rw [if_pos h1] at h
        simp at h
      · by_cases h2 : s.length > 20
        · rw [if_neg h1, if_pos h2] at h
          simp at h
        · by_cases h3 : s.toList ≠ [] ∧ s.toList.all isShortCodeChar = true
          · exact ⟨by omega, by omega, h3.2⟩
          · rw [if_neg h1, if_neg h2, if_neg h3] at h
            simp at h
    · rintro ⟨ha, hb, hc⟩
      unfold shortCodeIssues
      have h3 : s.toList ≠ [] ∧ s.toList.all isShortCodeChar = true := by
        refine ⟨?_, hc⟩
        intro hnil
        rw [hnil] at hlen
        simp at hlen
        omega
      rw [if_neg (by omega), if_neg (by omega), if_pos h3]
      simp
  · intro u
    unfold urlIssues
    by_cases h : (parseUrlHostname u).isSome = true
    · simp [h]
    · simp [h]
  · intro env uid input tbl h
    have he : (createFieldErrors input).isEmpty = false := List.isEmpty_eq_false.mpr h
    unfold createLinkAction
    simp only [he, Bool.false_eq_true, if_false]
  · intro env uid input tbl h
    have he : (updateFieldErrors input).isEmpty = false := List.isEmpty_eq_false.mpr h
    unfold updateLinkAction
    simp only [he, Bool.false_eq_true, if_false]

/-- Witness for C5: the create action rejects `shortCode = "ab"` with
the field-scoped message, leaving the empty table unchanged. -/
theorem validation_rejects_before_side_effects_w :
    createLinkAction noFaults (some "u")
        { url := "https://example.com/x", shortCode := some "ab" } [] =
      .ok (.errDetails "Invalid input"
             (createFieldErrors { url := "https://example.com/x", shortCode := some "ab" }),
           []) :=
  validation_rejects_before_side_effects.2.2.1 noFaults "u"
    { url := "https://example.com/x", shortCode := some "ab" } [] (by decide)

/-- C6: a create request with an explicitly supplied short code that is
already taken on any row returns the field-scoped collision error and
performs no insert. -/
theorem create_explicit_collision_no_insert :
    ∀ env uid input tbl c, env.checkFault = false →
      createFieldErrors input = [] → input.shortCode = some c →
      checkShortCodeExists tbl c none = true →
      createLinkAction env (some uid) input tbl =
        .ok (.errDetails "Short code already exists"
               [("shortCode", ["This short code is already taken"])], tbl) := by
  intro env uid input tbl c hcf hfe hsc hex
  unfold createLinkAction
  simp only [hfe, List.isEmpty_nil, if_true, hsc, hcf, Bool.false_eq_true, if_false, hex]

/-- Witness for C6: creating with explicit code `gh2024` over a table
already holding `gh2024` (another owner) yields the collision error and
the unchanged table. -/
theorem create_explicit_collision_no_insert_w :
    createLinkAction noFaults (some "u2")
        { url := "https://github.example", shortCode := some "gh2024" }
        [{ id := 1, userId := "u1", url := "https://github.example", shortCode := "gh2024" }] =
      .ok (.errDetails "Short code already exists"
             [("shortCode", ["This short code is already taken"])],
           [{ id := 1, userId := "u1", url := "https://github.example", shortCode := "gh2024" }]) :=
  create_explicit_collision_no_insert noFaults "u2"
    { url := "https://github.example", shortCode := some "gh2024" }
    [{ id := 1, userId := "u1", url := "https://github.example", shortCode := "gh2024" }]
    "gh2024" rfl (by decide) rfl (by decide)

/-- C10: in the update action the global collision check runs before any
ownership or existence check: whenever the requested code exists on a
row other than the target id, the result is the collision error, for
every caller and every table, whether or not the target row exists or is
owned by the caller. -/
theorem update_collision_check_runs_first :
    ∀ env uid input tbl, env.checkFault = false →
      updateFieldErrors input = [] →
      checkShortCodeExists tbl input.shortCode (some input.id) = true →
      updateLinkAction env (some uid) input tbl =
        .ok (.errDetails "Short code already exists"
               [("shortCode", ["This short code is already taken"])], tbl) := by
  intro env uid input tbl hcf hfe hex
  unfold updateLinkAction
  simp only [hfe, List.isEmpty_nil, if_true, hcf, Bool.false_eq_true, if_false, hex]

/-- Witness for C10: a caller owning no rows, updating a nonexistent id
to a code held by another user's row, receives the collision error. -/
theorem update_collision_check_runs_first_w :
    updateLinkAction noFaults (some "nobody")
        { id := 7, url := "https://b.example", shortCode := "yt-vid" }
        [{ id := 3, userId := "owner", url := "https://yt.example", shortCode := "yt-vid" }] =
      .ok (.errDetails "Short code already exists"
             [("shortCode", ["This short code is already taken"])],
           [{ id := 3, userId := "owner", url := "https://yt.example", shortCode := "yt-vid" }]) :=
  update_collision_check_runs_first noFaults "nobody"
    { id := 7, url := "https://b.example", shortCode := "yt-vid" }
    [{ id := 3, userId := "owner", url := "https://yt.example", shortCode := "yt-vid" }]
    rfl (by decide) (by decide)

/-- Counterexample to C4 as stated: an update request targeting a
nonexistent id (so certainly not owned by the caller) whose requested
short code is held by another user's row returns the collision error,
not `NotFoundOrForbidden`. -/
theorem update_nonexistent_can_yield_collision_cx :
    updateLinkAction noFaults (some "bob")
        { id := 2, url := "https://b.example", shortCode := "taken" }
        [{ id := 1, userId := "alice", url := "https://a.example", shortCode := "taken" }] =
      .ok (.errDetails "Short code already exists"
             [("shortCode", ["This short code is already taken"])],
           [{ id := 1, userId := "alice", url := "https://a.example", shortCode := "taken" }]) ∧
    (ActionResult.errDetails "Short code already exists"
        [("shortCode", ["This short code is already taken"])] ≠
      ActionResult.errOnly "Link not found or you do not have permission to edit it") := by
  constructor
  · decide
  · decide

/-- C4 (amended): for every update request that passes validation and
whose requested short code does not collide with another row, and for
every delete request, a target id that does not exist or is owned by a
different caller changes no row and returns the single
not-found-or-forbidden error, identical in both cases. -/
theorem update_delete_notFoundOrForbidden :
    (∀ env uid input tbl, env.checkFault = false → env.writeFault = false →
      updateFieldErrors input = [] →
      checkShortCodeExists tbl input.shortCode (some input.id) = false →
      (∀ r ∈ tbl, ¬(r.id = input.id ∧ r.userId = uid)) →
      updateLinkAction env (some uid) input tbl =
        .ok (.errOnly "Link not found or you do not have permission to edit it", tbl)) ∧
    (∀ env uid input tbl, env.writeFault = false →
      (∀ r ∈ tbl, ¬(r.id = input.id ∧ r.userId = uid)) →
      deleteLinkAction env (some uid) input tbl =
        .ok (.errOnly "Link not found or you do not have permission to delete it", tbl)) := by
  constructor
  · intro env uid input tbl hcf hwf hfe hex hown
    have hany : tbl.any (fun r => r.id == input.id && r.userId == uid) = false := by
      refine List.any_eq_false.mpr fun r hr => ?_
      have := hown r hr
      simp only [Bool.and_eq_true, beq_iff_eq, not_and]
      intro h1 h2
      exact this ⟨h1, h2⟩
    have hfind : tbl.find? (fun r => r.id == input.id && r.userId == uid) = none := by
      refine List.find?_eq_none.mpr fun r hr => ?_
      have := hown r hr
      simp only [Bool.and_eq_true, beq_iff_eq, not_and]
      intro h1 h2
      exact this ⟨h1, h2⟩
    have hmap : (tbl.map fun r =>
        if r.id == input.id && r.userId == uid then
          { r with url := input.url, shortCode := input.shortCode } else r) = tbl := by
      have h1 : (tbl.map fun r =>
          if r.id == input.id && r.userId == uid then
            { r with url := input.url, shortCode := input.shortCode } else r) = tbl.map id :=
        List.map_congr_left fun r hr => by
          have := hown r hr
          rw [if_neg]
          · rfl
          · simp only [Bool.and_eq_true, beq_iff_eq, not_and]
            intro hx hy
            exact this ⟨hx, hy⟩
      rw [h1, List.map_id]
    unfold updateLinkAction
    simp only [hfe, List.isEmpty_nil, if_true, hcf, Bool.false_eq_true, if_false, hex]
    unfold updateLink
    simp only [hwf, Bool.false_eq_true, if_false, hany, Bool.false_and, hfind, hmap]
    rfl
  · intro env uid input tbl hwf hown
    have hfind : tbl.find? (fun r => r.id == input.id && r.userId == uid) = none := by
      refine List.find?_eq_none.mpr fun r hr => ?_
      have := hown r hr
      simp only [Bool.and_eq_true, beq_iff_eq, not_and]
      intro h1 h2
      exact this ⟨h1, h2⟩
    have hfil : (tbl.filter fun r => !(r.id == input.id && r.userId == uid)) = tbl := by
      refine List.filter_eq_self.mpr fun r hr => ?_
      have := hown r hr
      simp only [Bool.not_eq_true', Bool.and_eq_false_iff]
      by_cases h1 : r.id = input.id
      · right
        simp only [beq_eq_false_iff_ne, ne_eq]
        intro h2
        exact this ⟨h1, h2⟩
      · left
        simp [h1]
    unfold deleteLinkAction deleteLink
    simp only [hwf, Bool.false_eq_true, if_false, hfind, hfil]

/-- Witness for C4 (amended): both actions, run by a caller against an
id they do not own, return the not-found error with the table intact. -/
theorem update_delete_notFoundOrForbidden_w :
    updateLinkAction noFaults (some "bob")
        { id := 5, url := "https://b.example", shortCode := "newcode" }
        [{ id := 1, userId := "alice", url := "https://a.example", shortCode := "other" }] =
      .ok (.errOnly "Link not found or you do not have permission to edit it",
           [{ id := 1, userId := "alice", url := "https://a.example", shortCode := "other" }]) ∧
    deleteLinkAction noFaults (some "bob") { id := 1 }
        [{ id := 1, userId := "alice", url := "https://a.example", shortCode := "other" }] =
      .ok (.errOnly "Link not found or you do not have permission to delete it",
           [{ id := 1, userId := "alice", url := "https://a.example", shortCode := "other" }]) :=
  ⟨update_delete_notFoundOrForbidden.1 noFaults "bob"
      { id := 5, url := "https://b.example", shortCode := "newcode" }
      [{ id := 1, userId := "alice", url := "https://a.example", shortCode := "other" }]
      rfl rfl (by decide) (by decide) (by decide),
   update_delete_notFoundOrForbidden.2 noFaults "bob" { id := 1 }
      [{ id := 1, userId := "alice", url := "https://a.example", shortCode := "other" }]
      rfl (by decide)⟩

/-- C3: after any successful create, the redirect lookup of the returned
row's short code answers a 307 redirect to exactly the stored
destination URL; a lookup of a code held by no row answers the 404
not-found response and never a redirect. -/
theorem create_redirect_roundTrip :
    (∀ env uid input tbl link tbl',
      createLinkAction env uid input tbl = .ok (.okLink link, tbl') →
      GET tbl' link.shortCode = .redirect 307 link.url) ∧
    (∀ tbl code, (∀ r ∈ tbl, ¬ r.shortCode = code) →
      GET tbl code = .notFound 404 "Link not found") := by
  constructor
  · intro env uid input tbl link tbl' h
    cases uid with
    | none => simp [createLinkAction] at h
    | some u =>
      obtain ⟨url0, sc0⟩ := input
      simp only [createLinkAction] at h
      by_cases hfe : (createFieldErrors ⟨url0, sc0⟩).isEmpty = true
      · rw [if_pos hfe] at h
        cases sc0 with
        | none =>
          cases hal : allocLoop env tbl (generateShortCodeFromUrl url0)
              (generateShortCodeFromUrl url0) 1 with
          | error e => rw [hal] at h; simp at h
          | ok o =>
            rw [hal] at h
            cases o with
            | none => simp at h
            | some code =>
              simp only [] at h
              cases hcl : createLink env tbl u url0 code with
              | error e => rw [hcl] at h; simp at h
              | ok p =>
                obtain ⟨l, t⟩ := p
                rw [hcl] at h
                simp only [Except.ok.injEq, Prod.mk.injEq, ActionResult.okLink.injEq] at h
                obtain ⟨hl, ht⟩ := h
                subst hl
                subst ht
                exact createLink_ok_GET hcl
        | some code =>
          cases hch : env.checkFault with
          | true => rw [hch] at h; simp at h
          | false =>
            rw [hch] at h
            simp only [Bool.false_eq_true, if_false] at h
            by_cases hex : checkShortCodeExists tbl code none = true
            · rw [if_pos hex] at h
              simp at h
            · rw [if_neg hex] at h
              cases hcl : createLink env tbl u url0 code with
              | error e => rw [hcl] at h; simp at h
              | ok p =>
                obtain ⟨l, t⟩ := p
                rw [hcl] at h
                simp only [Except.ok.injEq, Prod.mk.injEq, ActionResult.okLink.injEq] at h
                obtain ⟨hl, ht⟩ := h
                subst hl
                subst ht
                exact createLink_ok_GET hcl
      · rw [if_neg hfe] at h
        simp at h
  · intro tbl code hfresh
    unfold GET getLinkByShortCode
    rw [List.find?_eq_none.mpr fun r hr => by simpa using hfresh r hr]

/-- Witness for C3: creating `https://example.com/x` under explicit code
`ex1` on an empty table, then looking `ex1` up, redirects to exactly the
stored URL. -/
theorem create_redirect_roundTrip_w :
    GET [{ id := 1, userId := "u", url := "https://example.com/x", shortCode := "ex1" }]
        "ex1" = .redirect 307 "https://example.com/x" :=
  create_redirect_roundTrip.1 noFaults (some "u")
    { url := "https://example.com/x", shortCode := some "ex1" } []
    { id := 1, userId := "u", url := "https://example.com/x", shortCode := "ex1" }
    [{ id := 1, userId := "u", url := "https://example.com/x", shortCode := "ex1" }]
    (by decide)

/-- Counterexample to C9 as stated: a successful delete returns the bare
`{success: true}` acknowledgment, which carries no `data` field and is
outside the claimed two-shape interface; moreover a storage fault raised
during the uniqueness probe of a create escapes the orchestrator
uncaught instead of being normalized. -/
theorem delete_success_carries_no_link_cx :
    deleteLinkAction noFaults (some "u1") { id := 1 }
        [{ id := 1, userId := "u1", url := "https://e.example", shortCode := "abc" }] =
      .ok (.okUnit, []) ∧
    hasClaimedShape .okUnit = false ∧
    createLinkAction checksFaultEnv (some "u1")
        { url := "https://example.com/x", shortCode := some "ex1" } [] =
      .error () := by
  refine ⟨by decide, by decide, by decide⟩

/-- C9 (amended): provided the standalone uniqueness checks and the
allocator probes do not fault, the create and update actions always
return a normalized result — any fault of the persisting write included;
the delete action never propagates any fault at all, and its success is
the bare acknowledgment rather than a data-carrying success. -/
theorem actions_normalize_results :
    (∀ env uid input tbl, env.checkFault = false → (∀ n, env.probeFault n = false) →
      ∃ r, createLinkAction env uid input tbl = .ok r) ∧
    (∀ env uid input tbl, env.checkFault = false →
      ∃ r, updateLinkAction env uid input tbl = .ok r) ∧
    (∀ env uid input tbl, ∃ r, deleteLinkAction env uid input tbl = .ok r) ∧
    (∀ env uid input tbl r tbl', deleteLinkAction env uid input tbl = .ok (r, tbl') →
      r = .okUnit ∨ ∃ e, r = .errOnly e) := by
  refine ⟨?_, ?_, ?_, ?_⟩
  · intro env uid input tbl hcf hp
    cases uid with
    | none => exact ⟨_, rfl⟩
    | some u =>
      obtain ⟨url0, sc0⟩ := input
      simp only [createLinkAction]
      by_cases hfe : (createFieldErrors ⟨url0, sc0⟩).isEmpty = true
      · rw [if_pos hfe]
        cases sc0 with
        | none =>
          rw [allocLoop_firstFree env tbl _ hp 999 1 _ rfl]
          cases hv : (if checkShortCodeExists tbl (generateShortCodeFromUrl url0) none = true
              then (firstFreeAux tbl (generateShortCodeFromUrl url0) 1 999).map
                     (fun k => generateShortCodeFromUrl url0 ++ toString k)
              else some (generateShortCodeFromUrl url0)) with
          | none => exact ⟨_, rfl⟩
          | some code =>
            simp only []
            cases hcl : createLink env tbl u url0 code with
            | error e => exact ⟨_, rfl⟩
            | ok p => obtain ⟨l, t⟩ := p; exact ⟨_, rfl⟩
        | some code =>
          rw [hcf]
          simp only [Bool.false_eq_true, if_false]
          by_cases hex : checkShortCodeExists tbl code none = true
          · rw [if_pos hex]
            exact ⟨_, rfl⟩
          · rw [if_neg hex]
            cases hcl : createLink env tbl u url0 code with
            | error e => exact ⟨_, rfl⟩
            | ok p => obtain ⟨l, t⟩ := p; exact ⟨_, rfl⟩
      · rw [if_neg hfe]
        exact ⟨_, rfl⟩
  · intro env uid input tbl hcf
    cases uid with
    | none => exact ⟨_, rfl⟩
    | some u =>
      simp only [updateLinkAction]
      by_cases hfe : (updateFieldErrors input).isEmpty = true
      · rw [if_pos hfe, hcf]
        simp only [Bool.false_eq_true, if_false]
        by_cases hex : checkShortCodeExists tbl input.shortCode (some input.id) = true
        · rw [if_pos hex]
          exact ⟨_, rfl⟩
        · rw [if_neg hex]
          cases hup : updateLink env tbl input.id u input.url input.shortCode with
          | error e => exact ⟨_, rfl⟩
          | ok p =>
            obtain ⟨o, t⟩ := p
            cases o with
            | none => exact ⟨_, rfl⟩
            | some l => exact ⟨_, rfl⟩
      · rw [if_neg hfe]
        exact ⟨_, rfl⟩
  · intro env uid input tbl
    cases uid with
    | none => exact ⟨_, rfl⟩
    | some u =>
      simp only [deleteLinkAction]
      cases hdl : deleteLink env tbl input.id u with
      | error e => exact ⟨_, rfl⟩
      | ok p =>
        obtain ⟨o, t⟩ := p
        cases o with
        | none => exact ⟨_, rfl⟩
        | some l => exact ⟨_, rfl⟩
  · intro env uid input tbl r tbl' h
    cases uid with
    | none =>
      simp only [deleteLinkAction, Except.ok.injEq, Prod.mk.injEq] at h
      exact Or.inr ⟨_, h.1.symm⟩
    | some u =>
      simp only [deleteLinkAction] at h
      cases hdl : deleteLink env tbl input.id u with
      | error e =>
        rw [hdl] at h
        simp only [Except.ok.injEq, Prod.mk.injEq] at h
        exact Or.inr ⟨_, h.1.symm⟩
      | ok p =>
        obtain ⟨o, t⟩ := p
        rw [hdl] at h
        cases o with
        | none =>
          simp only [Except.ok.injEq, Prod.mk.injEq] at h
          exact Or.inr ⟨_, h.1.symm⟩
        | some l =>
          simp only [Except.ok.injEq, Prod.mk.injEq] at h
          exact Or.inl h.1.symm

/-- Witness for C9 (amended): on the fault-free environment a concrete
create returns a normalized `.ok` result. -/
theorem actions_normalize_results_w :
    ∃ r, createLinkAction noFaults (some "u")
        { url := "https://example.com/x", shortCode := some "ex1" } [] = .ok r :=
  actions_normalize_results.1 noFaults (some "u")
    { url := "https://example.com/x", shortCode := some "ex1" } [] rfl (fun _ => rfl)

/-- C1: when the create request carries no explicit code, the allocator
uses the base candidate verbatim if its probe reports it free, and
otherwise settles on `base ++ toString k` for the least suffix
`k ≥ 1` whose probe reports it free — every smaller suffix having been
probed and found taken, in ascending order with no gaps or repeats. -/
theorem allocator_first_free :
    ∀ env tbl url, (∀ n, env.probeFault n = false) →
      (checkShortCodeExists tbl (generateShortCodeFromUrl url) none = false →
        allocLoop env tbl (generateShortCodeFromUrl url) (generateShortCodeFromUrl url) 1 =
          .ok (some (generateShortCodeFromUrl url))) ∧
      (∀ k, checkShortCodeExists tbl (generateShortCodeFromUrl url) none = true →
        1 ≤ k → k ≤ 999 →
        checkShortCodeExists tbl (generateShortCodeFromUrl url ++ toString k) none = false →
        (∀ j, 1 ≤ j → j < k →
          checkShortCodeExists tbl (generateShortCodeFromUrl url ++ toString j) none = true) →
        allocLoop env tbl (generateShortCodeFromUrl url) (generateShortCodeFromUrl url) 1 =
          .ok (some (generateShortCodeFromUrl url ++ toString k))) := by
  intro env tbl url hp
  constructor
  · intro hfree
    rw [allocLoop_firstFree env tbl _ hp 999 1 _ rfl, hfree]
    simp
  · intro k hbase h1 h999 hfree htaken
    rw [allocLoop_firstFree env tbl _ hp 999 1 _ rfl, hbase, if_pos rfl,
      firstFreeAux_complete tbl (generateShortCodeFromUrl url) 999 1 k h1 (by omega) hfree
        (fun j hj1 hj2 => htaken j hj1 hj2)]
    rfl

/-- Witness for C1: with `github` taken, the allocator yields
`github1`. -/
theorem allocator_first_free_w :
    allocLoop noFaults
        [{ id := 1, userId := "u", url := "https://github.example", shortCode := "github" }]
        (generateShortCodeFromUrl "https://github.com")
        (generateShortCodeFromUrl "https://github.com") 1 =
      .ok (some (generateShortCodeFromUrl "https://github.com" ++ toString 1)) :=
  (allocator_first_free noFaults
      [{ id := 1, userId := "u", url := "https://github.example", shortCode := "github" }]
      "https://github.com" (fun _ => rfl)).2 1 (by decide) (by decide) (by decide) (by decide)
    (fun j hj1 hj2 => absurd (Nat.lt_of_le_of_lt hj1 hj2) (Nat.lt_irrefl 1))

/-- C7: with fault-free probes the allocator loop always terminates —
either with a candidate whose probe reported it free, or with the
no-free-value outcome; the latter arises whenever the base and all 999
suffixed candidates are taken (the 1000-attempt cap), and it surfaces
from the create action as the allocation-failure error asking the caller
to provide a custom code, with the table untouched. -/
theorem allocator_terminates_or_exhausts :
    (∀ env tbl base, (∀ n, env.probeFault n = false) →
      (∃ c, allocLoop env tbl base base 1 = .ok (some c) ∧
        checkShortCodeExists tbl c none = false) ∨
      allocLoop env tbl base base 1 = .ok none) ∧
    (∀ env tbl base, (∀ n, env.probeFault n = false) →
      checkShortCodeExists tbl base none = true →
      (∀ k, 1 ≤ k → k ≤ 999 → checkShortCodeExists tbl (base ++ toString k) none = true) →
      allocLoop env tbl base base 1 = .ok none) ∧
    (∀ env uid url tbl,
      createFieldErrors { url := url, shortCode := none } = [] →
      allocLoop env tbl (generateShortCodeFromUrl url) (generateShortCodeFromUrl url) 1 =
        .ok none →
      createLinkAction env (some uid) { url := url, shortCode := none } tbl =
        .ok (.errOnly "Failed to generate unique short code. Please provide a custom one.",
             tbl)) := by
  refine ⟨?_, ?_, ?_⟩
  · intro env tbl base hp
    rw [allocLoop_firstFree env tbl base hp 999 1 base rfl]
    by_cases hb : checkShortCodeExists tbl base none = true
    · rw [hb, if_pos rfl]
      rcases hff : firstFreeAux tbl base 1 999 with _ | k
      · right
        rfl
      · left
        exact ⟨base ++ toString k, by rw [Option.map_some'],
          (firstFreeAux_some tbl base 999 1 k hff).2.2.1⟩
    · left
      exact ⟨base, by rw [if_neg hb], Bool.not_eq_true _ |>.mp hb⟩
  · intro env tbl base hp hbase htaken
    rw [allocLoop_firstFree env tbl base hp 999 1 base rfl, hbase, if_pos rfl]
    rcases hff : firstFreeAux tbl base 1 999 with _ | k
    · rfl
    · obtain ⟨hk1, hk2, hkfree, _⟩ := firstFreeAux_some tbl base 999 1 k hff
      rw [htaken k hk1 (by omega)] at hkfree
      cases hkfree
  · intro env uid url tbl hfe halloc
    simp only [createLinkAction, hfe, List.isEmpty_nil, if_true]
    rw [halloc]

/-- Witness for C7: on the empty table the loop terminates at once with
a free candidate (or, vacuously, the exhaustion outcome). -/
theorem allocator_terminates_or_exhausts_w :
    (∃ c, allocLoop noFaults [] "github" "github" 1 = .ok (some c) ∧
      checkShortCodeExists [] c none = false) ∨
    allocLoop noFaults [] "github" "github" 1 = .ok none :=
  allocator_terminates_or_exhausts.1 noFaults [] "github" (fun _ => rfl)

/-- Counterexample to C8 as stated: with a ten-character base candidate
already taken, the allocator settles on an eleven-character code, which
neither matches `[a-z0-9]{1,10}` nor is the literal `link`. -/
theorem allocator_code_can_exceed_ten_chars_cx :
    createLinkAction noFaults (some "u")
        { url := "https://abcdefghij.example", shortCode := none }
        [{ id := 1, userId := "v", url := "https://abcdefghij.example",
           shortCode := "abcdefghij" }] =
      .ok (.okLink { id := 2, userId := "u", url := "https://abcdefghij.example",
                     shortCode := "abcdefghij1" },
           [{ id := 1, userId := "v", url := "https://abcdefghij.example",
              shortCode := "abcdefghij" },
            { id := 2, userId := "u", url := "https://abcdefghij.example",
              shortCode := "abcdefghij1" }]) ∧
    ¬ ("abcdefghij1" : String).length ≤ 10 ∧ ("abcdefghij1" : String) ≠ "link" := by
  refine ⟨?_, by decide, by decide⟩
  have halloc : allocLoop noFaults
      [{ id := 1, userId := "v", url := "https://abcdefghij.example",
         shortCode := "abcdefghij" }]
      (generateShortCodeFromUrl "https://abcdefghij.example")
      (generateShortCodeFromUrl "https://abcdefghij.example") 1 = .ok (some "abcdefghij1") := by
    rw [allocLoop_firstFree noFaults _ _ (fun _ => rfl) 999 1 _ rfl]
    decide
  exact createLinkAction_alloc_ok (by decide) halloc (by decide)

/-- C8 (amended): for a create without explicit code, any code the
action successfully stores consists of `[a-z0-9]` characters, is 1 to 13
characters long (base of at most 10 plus a numeric suffix of at most 3
digits) rather than at most 10, and did not collide with any
pre-existing row at the moment of its existence probe. -/
theorem allocator_code_shape_and_free :
    ∀ env uid url tbl link tbl', (∀ n, env.probeFault n = false) →
      createLinkAction env (some uid) { url := url, shortCode := none } tbl =
        .ok (.okLink link, tbl') →
      link.shortCode.toList.all isLowAlnum = true ∧
      1 ≤ link.shortCode.length ∧ link.shortCode.length ≤ 13 ∧
      checkShortCodeExists tbl link.shortCode none = false := by
  intro env uid url tbl link tbl' hp h
  simp only [createLinkAction] at h
  by_cases hfe : (createFieldErrors { url := url, shortCode := none }).isEmpty = true
  case neg => rw [if_neg hfe] at h; simp at h
  rw [if_pos hfe, allocLoop_firstFree env tbl _ hp 999 1 _ rfl] at h
  obtain ⟨hb1, hb2, hb3⟩ := generateShortCodeFromUrl_shape url
  by_cases hb : checkShortCodeExists tbl (generateShortCodeFromUrl url) none = true
  · rw [if_pos hb] at h
    rcases hff : firstFreeAux tbl (generateShortCodeFromUrl url) 1 999 with _ | k
    · rw [hff] at h
      simp at h
    · rw [hff, Option.map_some'] at h
      simp only [] at h
      obtain ⟨hk1, hk2, hkfree, _⟩ := firstFreeAux_some tbl (generateShortCodeFromUrl url) 999 1 k hff
      obtain ⟨hd1, hd2⟩ := toString_counter_small k (by omega)
      cases hcl : createLink env tbl uid url (generateShortCodeFromUrl url ++ toString k) with
      | error e => rw [hcl] at h; simp at h
      | ok p =>
        obtain ⟨l, t⟩ := p
        rw [hcl] at h
        simp only [Except.ok.injEq, Prod.mk.injEq, ActionResult.okLink.injEq] at h
        obtain ⟨hl, ht⟩ := h
        obtain ⟨hlval, _, _⟩ := createLink_ok hcl
        have hcode : link.shortCode = generateShortCodeFromUrl url ++ toString k := by
          rw [← hl, hlval]
        rw [hcode]
        refine ⟨?_, ?_, ?_, hkfree⟩
        · rw [show (generateShortCodeFromUrl url ++ toString k).toList =
              (generateShortCodeFromUrl url).toList ++ (toString k).toList from
            String.data_append .., List.all_append, hb1, hd1]
          rfl
        · rw [String.length_append]
          omega
        · rw [String.length_append]
          omega
  · rw [if_neg hb] at h
    simp only [] at h
    cases hcl : createLink env tbl uid url (generateShortCodeFromUrl url) with
    | error e => rw [hcl] at h; simp at h
    | ok p =>
      obtain ⟨l, t⟩ := p
      rw [hcl] at h
      simp only [Except.ok.injEq, Prod.mk.injEq, ActionResult.okLink.injEq] at h
      obtain ⟨hl, ht⟩ := h
      obtain ⟨hlval, _, _⟩ := createLink_ok hcl
      have hcode : link.shortCode = generateShortCodeFromUrl url := by
        rw [← hl, hlval]
      rw [hcode]
      exact ⟨hb1, hb2, by omega, Bool.not_eq_true _ |>.mp hb⟩

/-- Witness for C8 (amended): a concrete fault-free create on the empty
table stores `example`, whose shape and freshness the theorem reports. -/
theorem allocator_code_shape_and_free_w :
    ({ id := 1, userId := "u", url := "https://example.com",
       shortCode := "example" } : Link).shortCode.toList.all isLowAlnum = true ∧
    1 ≤ ({ id := 1, userId := "u", url := "https://example.com",
           shortCode := "example" } : Link).shortCode.length ∧
    ({ id := 1, userId := "u", url := "https://example.com",
       shortCode := "example" } : Link).shortCode.length ≤ 13 ∧
    checkShortCodeExists []
      ({ id := 1, userId := "u", url := "https://example.com",
         shortCode := "example" } : Link).shortCode none = false :=
 by
  have halloc : allocLoop noFaults [] (generateShortCodeFromUrl "https://example.com")
      (generateShortCodeFromUrl "https://example.com") 1 = .ok (some "example") := by
    rw [allocLoop_firstFree noFaults _ _ (fun _ => rfl) 999 1 _ rfl]
    decide
  exact allocator_code_shape_and_free noFaults "u" "https://example.com" []
    { id := 1, userId := "u", url := "https://example.com", shortCode := "example" }
    [{ id := 1, userId := "u", url := "https://example.com", shortCode := "example" }]
    (fun _ => rfl)
    (createLinkAction_alloc_ok (by decide) halloc (by decide))

end LinkShortener
